import Mathlib

/-!
Shallow embedding of the Spotify dashboard script (`src/app.py`) of the
RotemEZ/Visualization repository, together with theorems settling the
specification claims about its cleaning, binning, aggregation, reshaping
and clustering steps.

Numbers held by the dataframe are modelled as rationals (`ℚ`), missing
values (`NaN`) as `Option.none`, and the raw textual cells as `String`.
-/

namespace Spotify

/-! ## Numeric coercion (`pd.to_numeric(..., errors='coerce')`, lines 12-14)

`pd.to_numeric` on a textual cell parses an optional leading minus sign,
a digit string, and an optional fractional part separated by a dot; any
other content (in particular a thousands separator `,`) fails, and with
`errors='coerce'` a failure yields a missing value instead of an error. -/

/-- Value of a digit string, most significant digit first. -/
def digitsToNat (l : List Char) : ℕ :=
  l.foldl (fun a c => 10 * a + (c.toNat - 48)) 0

/-- Split a character list on a separator character, keeping empty pieces,
like `str.split` on a single-character separator. -/
def splitOnChar (sep : Char) : List Char → List (List Char)
  | [] => [[]]
  | c :: cs =>
    if c = sep then [] :: splitOnChar sep cs
    else
      match splitOnChar sep cs with
      | [] => [[c]]
      | g :: gs => (c :: g) :: gs

/-- Unsigned part of `pd.to_numeric` on a textual cell: digits with an
optional fractional part. Anything else fails (`none`). -/
def numParse (cs : List Char) : Option ℚ :=
  match splitOnChar '.' cs with
  | [w] =>
    if w ≠ [] ∧ w.all Char.isDigit then some ((digitsToNat w : ℕ) : ℚ) else none
  | [w, f] =>
    if (w ≠ [] ∨ f ≠ []) ∧ w.all Char.isDigit ∧ f.all Char.isDigit then
      some (((digitsToNat w : ℕ) : ℚ) + ((digitsToNat f : ℕ) : ℚ) / (10 : ℚ) ^ f.length)
    else none
  | _ => none

/-- `pd.to_numeric(cell, errors='coerce')` on a textual cell: optional
leading minus sign, then `numParse`; a parse failure becomes missing. -/
def to_numeric (s : String) : Option ℚ :=
  if s.toList.head? = some '-' then (numParse s.toList.tail).map (fun q => -q)
  else numParse s.toList

/-- `.str.replace(",", "")` (line 13): delete every comma of the cell. -/
def replaceCommas (s : String) : String :=
  String.mk (s.toList.filter (fun c => decide (c ≠ ',')))

/-- Line 12: `spotify["streams"] = pd.to_numeric(spotify['streams'], errors='coerce')`
(no comma stripping). -/
def streams_clean (s : String) : Option ℚ := to_numeric s

/-- Line 13: `pd.to_numeric(spotify['in_deezer_playlists'].str.replace(",", ""), errors='coerce')`:
commas are stripped, then the cell is coerced. -/
def in_deezer_playlists_clean (s : String) : Option ℚ := to_numeric (replaceCommas s)

/-- Line 14: `pd.to_numeric(spotify['in_shazam_charts'], errors='coerce')`
(no comma stripping). -/
def in_shazam_charts_coerced (s : String) : Option ℚ := to_numeric s

/-- `Series.fillna(d)`: replace a missing value by `d`, keep any present value. -/
def fillna (d : ℚ) : Option ℚ → Option ℚ
  | none => some d
  | some v => some v

/-- Line 40: `spotify['in_shazam_charts'].fillna(0, inplace=True)` applied
after the coercion of line 14. -/
def in_shazam_charts_clean (s : String) : Option ℚ :=
  fillna 0 (in_shazam_charts_coerced s)

/-! ## Energy / valence binning (`pd.cut`, lines 28-35)

`energy_bins = [0, 0.2, 0.4, 0.6, 0.8, 1.0]` with the five labels below.
`pd.cut` with its default `right=True, include_lowest=False` sorts a value
`e` into the interval `(bins[i], bins[i+1]]`; a value outside every such
left-open right-closed interval (in particular `e = 0`) gets no label. -/

/-- The five ordinal bin labels shared by the energy and valence columns. -/
inductive Level where
  | veryLow
  | low
  | medium
  | high
  | veryHigh
deriving DecidableEq

/-- The label string attached to each bin (lines 29 and 31). -/
def Level.label : Level → String
  | .veryLow => "Very Low (0-0.2)"
  | .low => "Low (0.2-0.4)"
  | .medium => "Medium (0.4-0.6)"
  | .high => "High (0.6-0.8)"
  | .veryHigh => "Very High (0.8-1.0)"

/-- Lower bound of the numeric range named by a label. -/
def Level.lo : Level → ℚ
  | .veryLow => 0
  | .low => 1/5
  | .medium => 2/5
  | .high => 3/5
  | .veryHigh => 4/5

/-- Upper bound of the numeric range named by a label. -/
def Level.hi : Level → ℚ
  | .veryLow => 1/5
  | .low => 2/5
  | .medium => 3/5
  | .high => 4/5
  | .veryHigh => 1

/-- The label list in bin order (`energy_labels` / `valence_labels`). -/
def levels : List Level := [.veryLow, .low, .medium, .high, .veryHigh]

/-- `pd.cut(e, bins=[0, 0.2, 0.4, 0.6, 0.8, 1.0], labels=...)` with the
default `right=True, include_lowest=False`: `e` is labelled `l` when
`l.lo < e ≤ l.hi`, and left unlabelled (missing) otherwise. -/
def pd_cut (e : ℚ) : Option Level :=
  if 0 < e ∧ e ≤ 1/5 then some .veryLow
  else if 1/5 < e ∧ e ≤ 2/5 then some .low
  else if 2/5 < e ∧ e ≤ 3/5 then some .medium
  else if 3/5 < e ∧ e ≤ 4/5 then some .high
  else if 4/5 < e ∧ e ≤ 1 then some .veryHigh
  else none

/-! ## Binned-combination view (lines 135-136)

`spotify.groupby(['energy level', 'valence level'])['in_spotify_charts'].mean().reset_index()`.
Both group keys are categorical columns produced by `pd.cut`, and `groupby`
on categorical keys keeps every category combination (default
`observed=False`): the result ranges over the full 5×5 product of labels,
with a missing mean for combinations no row realises. Rows whose own label
is missing belong to no group. -/

/-- A row as seen by the binned-combination view: the two bin labels
(missing when `pd.cut` assigned none) and the `in_spotify_charts` count. -/
structure BinRow where
  energy_level : Option Level
  valence_level : Option Level
  in_spotify_charts : ℚ
deriving DecidableEq

/-- The rows of one (energy level, valence level) group. -/
def pairRows (rows : List BinRow) (e v : Level) : List BinRow :=
  rows.filter (fun r => decide (r.energy_level = some e) && decide (r.valence_level = some v))

/-- Mean of `in_spotify_charts` over one group; missing when the group is empty. -/
def groupMean (rows : List BinRow) (e v : Level) : Option ℚ :=
  if (pairRows rows e v).length = 0 then none
  else some (((pairRows rows e v).map (fun r => r.in_spotify_charts)).sum /
    ((pairRows rows e v).length : ℚ))

/-- Lines 135-136: one output row per pair of the full 5×5 label product,
energy level varying slowest, carrying the group's mean chart count. -/
def combination_charts_avg (rows : List BinRow) : List (Level × Level × Option ℚ) :=
  levels.flatMap (fun e => levels.map (fun v => (e, v, groupMean rows e v)))

/-! ## Top-artist view (lines 62-67) -/

/-- A row as seen by the top-artist view: `artist(s)_name`, `released_year`
and the coerced (hence possibly missing) `streams` count. -/
structure Track where
  artist_name : String
  released_year : ℤ
  streams : Option ℚ
deriving DecidableEq

/-- Line 62: keep the rows whose `released_year` lies in the inclusive
range `[lo, hi]`. -/
def year_filter (rows : List Track) (lo hi : ℤ) : List Track :=
  rows.filter (fun r => decide (lo ≤ r.released_year) && decide (r.released_year ≤ hi))

/-- The rows of one artist's group. -/
def artistRows (rows : List Track) (a : String) : List Track :=
  rows.filter (fun r => decide (r.artist_name = a))

/-- `groupby('artist(s)_name')['streams'].sum()` for one artist: missing
stream counts are skipped (counted as 0), an all-missing group sums to 0. -/
def sum_streams (rows : List Track) (a : String) : ℚ :=
  ((artistRows rows a).map (fun r => r.streams.getD 0)).sum

/-- Lexicographic order on character lists (code-point order), the order
`groupby` sorts its group keys by. -/
def charListLe : List Char → List Char → Bool
  | [], _ => true
  | _ :: _, [] => false
  | a :: as, b :: bs => if a = b then charListLe as bs else decide (a < b)

/-- Code-point order on strings. -/
def strLe (a b : String) : Bool := charListLe a.toList b.toList

/-- The group keys of `groupby('artist(s)_name')`: the distinct artist
names, in ascending order (pandas sorts group keys by default). -/
def group_keys (rows : List Track) : List String :=
  List.insertionSort (fun a b => strLe a b = true) (rows.map (fun r => r.artist_name)).dedup

/-- Line 65: `groupby('artist(s)_name')['streams'].sum().reset_index()`:
one `(artist, summed streams)` row per distinct artist of the input. -/
def grouped_streams (rows : List Track) : List (String × ℚ) :=
  (group_keys rows).map (fun a => (a, sum_streams rows a))

/-- Line 66: sort by summed streams descending and keep the first 10. -/
def artist_popularity (rows : List Track) (lo hi : ℤ) : List (String × ℚ) :=
  (List.insertionSort (fun p q : String × ℚ => q.2 ≤ p.2)
    (grouped_streams (year_filter rows lo hi))).take 10

/-- Line 67: append `streams_billions = streams / 1e9` to each kept row. -/
def artist_popularity_billions (rows : List Track) (lo hi : ℤ) :
    List (String × ℚ × ℚ) :=
  (artist_popularity rows lo hi).map (fun p => (p.1, p.2, p.2 / 1000000000))

/-! ## Month-name conversion (line 44)

`pd.to_datetime(spotify['released_month'], format='%m').dt.strftime('%B')`
turns the month number 1..12 into the full English month name; a number
outside 1..12 makes `to_datetime` fail, modelled as `none`. -/

/-- The English month names, as in line 96 of the source. -/
def month_names : List String :=
  ["January", "February", "March", "April", "May", "June", "July", "August",
   "September", "October", "November", "December"]

/-- Line 44, the composite `to_datetime(format='%m') ∘ strftime('%B')`:
month number to full English month name, `none` outside 1..12. -/
def strftime_B (m : ℤ) : Option String :=
  if m = 1 then some "January"
  else if m = 2 then some "February"
  else if m = 3 then some "March"
  else if m = 4 then some "April"
  else if m = 5 then some "May"
  else if m = 6 then some "June"
  else if m = 7 then some "July"
  else if m = 8 then some "August"
  else if m = 9 then some "September"
  else if m = 10 then some "October"
  else if m = 11 then some "November"
  else if m = 12 then some "December"
  else none

/-! ## Attribute-vs-playlists reshape (lines 23-25 and 186-188) -/

/-- A row as seen by the reshape: the two id columns `in_spotify_playlists`
and `track_name`, and the three value columns, holding their raw values
as read from the file. -/
structure SongRow where
  in_spotify_playlists : ℚ
  track_name : String
  danceability : ℚ
  bpm : ℚ
  acousticness : ℚ
deriving DecidableEq

/-- Lines 23-25: divide the percentage columns (`danceability_%` and
`acousticness_%` among the melted ones; `bpm` is not a percentage column)
by 100. -/
def normalize_percent (r : SongRow) : SongRow :=
  { r with danceability := r.danceability / 100, acousticness := r.acousticness / 100 }

/-- One row of the melted (long-form) table. -/
structure MeltedRow where
  in_spotify_playlists : ℚ
  track_name : String
  attr : String
  value : ℚ
deriving DecidableEq

/-- Lines 186-188: `melt(id_vars=['in_spotify_playlists', 'track_name'],
value_vars=['danceability_%', 'bpm', 'acousticness_%'])`: one block of rows
per value column, in the given column order, each block listing every input
row once with that column's value. -/
def melt (rows : List SongRow) : List MeltedRow :=
  rows.map (fun r => ⟨r.in_spotify_playlists, r.track_name, "danceability_%", r.danceability⟩)
    ++ rows.map (fun r => ⟨r.in_spotify_playlists, r.track_name, "bpm", r.bpm⟩)
    ++ rows.map (fun r => ⟨r.in_spotify_playlists, r.track_name, "acousticness_%", r.acousticness⟩)

/-- The melted table of the source: percentage normalization (lines 23-25)
followed by the reshape (lines 186-188). -/
def spotify_melted (rows : List SongRow) : List MeltedRow :=
  melt (rows.map normalize_percent)

/-! ## Clusterer (lines 231-243)

The 8×8 rounded correlation matrix is reindexed by the dendrogram leaf
order on both axes (`.loc[clustered_order, clustered_order]`, line 241)
and its column order is then reversed (`.iloc[:, ::-1]`, line 243). The
leaf order returned by `sch.dendrogram` is a permutation of the eight
metric labels, modelled as a permutation of `Fin 8`. -/

/-- An 8×8 matrix over the eight platform-presence metrics. -/
abbrev Mat : Type := Fin 8 → Fin 8 → ℚ

/-- Line 241: `correlation_matrix.loc[clustered_order, clustered_order]`:
apply the leaf order `ord` to both the rows and the columns. -/
def loc_reorder (M : Mat) (ord : Equiv.Perm (Fin 8)) : Mat :=
  fun i j => M (ord i) (ord j)

/-- Line 243: `correlation_matrix.iloc[:, ::-1]`: reverse the column order. -/
def reverse_columns (M : Mat) : Mat :=
  fun i j => M i (Fin.rev j)

/-- Lines 241-243 composed: the matrix handed to the heatmap. -/
def clusterer_output (M : Mat) (ord : Equiv.Perm (Fin 8)) : Mat :=
  reverse_columns (loc_reorder M ord)

end Spotify

/-! ## Theorems -/

namespace Spotify

/-- Claim C1, counterexample: the value 0 lies in the unit interval and is
non-missing, yet the binning step of lines 28-35 assigns it no label at
all (`pd.cut` keeps its default `include_lowest=False`, so the first
interval is left-open and 0 falls outside every interval). -/
theorem pd_cut_zero_unlabelled : pd_cut 0 = none := by
  norm_num [pd_cut]

/-- Claim C1 (amended): for every non-missing value `e` with `0 < e ≤ 1`,
the binning step assigns exactly one of the five labels, the numeric range
named by the assigned label contains `e`, and every interval — the first
one included — is left-open and right-closed; the value exactly 0 is left
unlabelled. -/
theorem pd_cut_unique_label (e : ℚ) (h0 : 0 < e) (h1 : e ≤ 1) :
    ∃ l : Level, pd_cut e = some l ∧ Level.lo l < e ∧ e ≤ Level.hi l ∧
      ∀ m : Level, Level.lo m < e ∧ e ≤ Level.hi m → m = l := by
  rcases le_or_lt e (1/5) with c1 | c1
  · refine ⟨.veryLow, ?_, by simpa [Level.lo] using h0,
      by simpa [Level.hi] using c1, ?_⟩
    · unfold pd_cut
      rw [if_pos ⟨h0, c1⟩]
    · intro m hm
      cases m <;> simp [Level.lo, Level.hi] at hm ⊢ <;> linarith [hm.1, hm.2]
  · have n1 : ¬ (0 < e ∧ e ≤ 1/5) := fun h => absurd h.2 (not_le.mpr c1)
    rcases le_or_lt e (2/5) with c2 | c2
    · refine ⟨.low, ?_, by simpa [Level.lo] using c1,
        by simpa [Level.hi] using c2, ?_⟩
      · unfold pd_cut
        rw [if_neg n1, if_pos ⟨c1, c2⟩]
      · intro m hm
        cases m <;> simp [Level.lo, Level.hi] at hm ⊢ <;> linarith [hm.1, hm.2]
    · have n2 : ¬ (1/5 < e ∧ e ≤ 2/5) := fun h => absurd h.2 (not_le.mpr c2)
      rcases le_or_lt e (3/5) with c3 | c3
      · refine ⟨.medium, ?_, by simpa [Level.lo] using c2,
          by simpa [Level.hi] using c3, ?_⟩
        · unfold pd_cut
          rw [if_neg n1, if_neg n2, if_pos ⟨c2, c3⟩]
        · intro m hm
          cases m <;> simp [Level.lo, Level.hi] at hm ⊢ <;> linarith [hm.1, hm.2]
      · have n3 : ¬ (2/5 < e ∧ e ≤ 3/5) := fun h => absurd h.2 (not_le.mpr c3)
        rcases le_or_lt e (4/5) with c4 | c4
        · refine ⟨.high, ?_, by simpa [Level.lo] using c3,
            by simpa [Level.hi] using c4, ?_⟩
          · unfold pd_cut
            rw [if_neg n1, if_neg n2, if_neg n3, if_pos ⟨c3, c4⟩]
          · intro m hm
            cases m <;> simp [Level.lo, Level.hi] at hm ⊢ <;> linarith [hm.1, hm.2]
        · have n4 : ¬ (3/5 < e ∧ e ≤ 4/5) := fun h => absurd h.2 (not_le.mpr c4)
          refine ⟨.veryHigh, ?_, by simpa [Level.lo] using c4,
            by simpa [Level.hi] using h1, ?_⟩
          · unfold pd_cut
            rw [if_neg n1, if_neg n2, if_neg n3, if_neg n4, if_pos ⟨c4, h1⟩]
          · intro m hm
            cases m <;> simp [Level.lo, Level.hi] at hm ⊢ <;> linarith [hm.1, hm.2]

/-- Claim C1, witness: the amended theorem instantiated at `e = 3/20`. -/
theorem pd_cut_unique_label_witness :
    (0:ℚ) < 3/20 ∧ (3/20:ℚ) ≤ 1 ∧
    (∃ l : Level, pd_cut (3/20) = some l ∧ Level.lo l < 3/20 ∧ (3/20:ℚ) ≤ Level.hi l ∧
      ∀ m : Level, Level.lo m < 3/20 ∧ (3/20:ℚ) ≤ Level.hi m → m = l) :=
  ⟨by norm_num, by norm_num, pd_cut_unique_label (3/20) (by norm_num) (by norm_num)⟩

/-- Claim C7: binning the energy values 0.15, 0.45, 0.85 (after the
percentage normalization of lines 23-25) with the fixed bin boundaries
yields the labels "Very Low (0-0.2)", "Medium (0.4-0.6)" and
"Very High (0.8-1.0)" respectively. -/
theorem pd_cut_examples :
    pd_cut (15/100) = some Level.veryLow ∧
    pd_cut (45/100) = some Level.medium ∧
    pd_cut (85/100) = some Level.veryHigh ∧
    (pd_cut (15/100)).map Level.label = some "Very Low (0-0.2)" ∧
    (pd_cut (45/100)).map Level.label = some "Medium (0.4-0.6)" ∧
    (pd_cut (85/100)).map Level.label = some "Very High (0.8-1.0)" := by
  norm_num [pd_cut, Level.label]

/-- Claim C8: for every month number between 1 and 12, the conversion of
line 44 produces the full English month name — the entry of the month-name
list at position `m - 1` — and never a missing value. -/
theorem strftime_B_month_names (m : ℤ) (h1 : 1 ≤ m) (h2 : m ≤ 12) :
    strftime_B m = month_names[(m - 1).toNat]? ∧ (strftime_B m).isSome := by
  interval_cases m <;> decide

/-- Claim C8, witness: the month-name theorem instantiated at `m = 5`. -/
theorem strftime_B_month_names_witness :
    (1:ℤ) ≤ 5 ∧ (5:ℤ) ≤ 12 ∧ strftime_B 5 = month_names[((5:ℤ) - 1).toNat]? :=
  ⟨by decide, by decide, (strftime_B_month_names 5 (by decide) (by decide)).1⟩

end Spotify

namespace Spotify

/-- `splitOnChar` always yields at least one piece. -/
lemma splitOnChar_ne_nil (sep : Char) (l : List Char) : splitOnChar sep l ≠ [] := by
  induction l with
  | nil => simp [splitOnChar]
  | cons c cs ih =>
    simp only [splitOnChar]
    by_cases hc : c = sep
    · simp [hc]
    · rw [if_neg hc]
      rcases hr : splitOnChar sep cs with _ | ⟨g, gs⟩ <;> simp [hr]

/-- Every non-separator character of the input survives into some piece. -/
lemma exists_piece_splitOnChar {sep c : Char} : ∀ {l : List Char}, c ∈ l → c ≠ sep →
    ∃ p ∈ splitOnChar sep l, c ∈ p := by
  intro l
  induction l with
  | nil => intro h _; exact absurd h (List.not_mem_nil c)
  | cons a cs ih =>
    intro hmem hne
    by_cases ha : a = sep
    · have hc : c ∈ cs := by
        rcases List.mem_cons.mp hmem with h | h
        · exact absurd (h.trans ha) hne
        · exact h
      obtain ⟨p, hp, hcp⟩ := ih hc hne
      refine ⟨p, ?_, hcp⟩
      simp only [splitOnChar]
      rw [if_pos ha]
      exact List.mem_cons_of_mem _ hp
    · rcases hr : splitOnChar sep cs with _ | ⟨g, gs⟩
      · exact absurd hr (splitOnChar_ne_nil sep cs)
      · rcases List.mem_cons.mp hmem with h | h
        · refine ⟨a :: g, ?_, ?_⟩
          · simp only [splitOnChar]
            rw [if_neg ha, hr]
            exact List.mem_cons_self _ _
          · rw [h]
            exact List.mem_cons_self _ _
        · obtain ⟨p, hp, hcp⟩ := ih h hne
          rw [hr] at hp
          rcases List.mem_cons.mp hp with h2 | h2
          · refine ⟨a :: g, ?_, ?_⟩
            · simp only [splitOnChar]
              rw [if_neg ha, hr]
              exact List.mem_cons_self _ _
            · rw [h2] at hcp
              exact List.mem_cons_of_mem _ hcp
          · refine ⟨p, ?_, hcp⟩
            simp only [splitOnChar]
            rw [if_neg ha, hr]
            exact List.mem_cons_of_mem _ h2

/-- A character list containing no separator is returned as one piece. -/
lemma splitOnChar_no_sep {sep : Char} : ∀ {l : List Char}, (∀ c ∈ l, c ≠ sep) →
    splitOnChar sep l = [l] := by
  intro l
  induction l with
  | nil => intro _; rfl
  | cons a cs ih =>
    intro h
    have ha : a ≠ sep := h a (List.mem_cons_self a cs)
    have hcs := ih (fun c hc => h c (List.mem_cons_of_mem a hc))
    simp only [splitOnChar]
    rw [if_neg ha, hcs]

/-- A cell containing a comma fails the unsigned part of the parse. -/
lemma numParse_comma {cs : List Char} (h : ',' ∈ cs) : numParse cs = none := by
  obtain ⟨p, hp, hcp⟩ := @exists_piece_splitOnChar '.' ',' cs h (by decide)
  have hpd : ¬ (p.all Char.isDigit = true) := fun hall =>
    absurd ((List.all_eq_true.mp hall) ',' hcp) (by decide)
  unfold numParse
  rcases hs : splitOnChar '.' cs with _ | ⟨w, _ | ⟨f, _ | ⟨x, xs⟩⟩⟩
  · rfl
  · rw [hs] at hp
    have hpw : p = w := by simpa using hp
    rw [hpw] at hpd
    exact if_neg (fun hh => hpd hh.2)
  · rw [hs] at hp
    refine if_neg (fun hh => ?_)
    rcases List.mem_cons.mp hp with h1 | h1
    · rw [h1] at hpd
      exact hpd hh.2.1
    · have hpf : p = f := by simpa using h1
      rw [hpf] at hpd
      exact hpd hh.2.2
  · rfl

/-- `pd.to_numeric(..., errors='coerce')` turns any cell containing a
comma into a missing value: the parse fails, it does not strip the comma. -/
lemma to_numeric_comma (s : String) (h : ',' ∈ s.toList) : to_numeric s = none := by
  unfold to_numeric
  rcases hl : s.toList with _ | ⟨c, t⟩
  · exact absurd h (by rw [hl] at h; exact absurd h (List.not_mem_nil _))
  · rw [hl] at h
    simp only [List.head?_cons, List.tail_cons]
    by_cases hc : c = '-'
    · rw [if_pos (by rw [hc])]
      have ht : ',' ∈ t := by
        rcases List.mem_cons.mp h with h1 | h1
        · rw [hc] at h1
          exact absurd h1 (by decide)
        · exact h1
      rw [numParse_comma ht]
      rfl
    · rw [if_neg (fun heq => hc (Option.some.inj heq))]
      exact numParse_comma h

/-- A nonempty all-digit cell parses to the value of its digit string. -/
lemma to_numeric_digits {w : List Char} (hne : w ≠ []) (hd : w.all Char.isDigit = true) :
    to_numeric (String.mk w) = some ((digitsToNat w : ℕ) : ℚ) := by
  have hnodot : ∀ c ∈ w, c ≠ '.' := by
    intro c hc hceq
    have hh := (List.all_eq_true.mp hd) c hc
    rw [hceq] at hh
    exact absurd hh (by decide)
  have hlist : (String.mk w).toList = w := rfl
  unfold to_numeric
  rw [hlist]
  have hhead : ¬ (w.head? = some '-') := by
    rcases w with _ | ⟨c, t⟩
    · simp
    · simp only [List.head?_cons]
      intro heq
      have hc := (List.all_eq_true.mp hd) c (List.mem_cons_self c t)
      rw [Option.some.inj heq] at hc
      exact absurd hc (by decide)
  rw [if_neg hhead]
  unfold numParse
  rw [splitOnChar_no_sep hnodot]
  exact if_pos ⟨hne, hd⟩

/-- Claim C3, counterexample: the text value "1,234" becomes missing — not
the number 1234 — in the `streams` and `in_shazam_charts` columns, because
only the `in_deezer_playlists` coercion (line 13) strips commas first. -/
theorem comma_only_stripped_for_deezer :
    streams_clean "1,234" = none ∧ in_shazam_charts_coerced "1,234" = none ∧
    in_deezer_playlists_clean "1,234" = some 1234 := by
  refine ⟨to_numeric_comma _ (by decide), to_numeric_comma _ (by decide), ?_⟩
  have hrep : replaceCommas "1,234" = String.mk ['1', '2', '3', '4'] := rfl
  unfold in_deezer_playlists_clean
  rw [hrep, to_numeric_digits (by decide) (by decide)]
  have hval : digitsToNat ['1', '2', '3', '4'] = 1234 := by decide
  rw [hval]
  norm_num

/-- Claim C3 (amended): after cleaning, the three coerced columns hold only
numbers or missing values, and a parse failure becomes missing rather than
an error; but thousands separators are stripped before parsing only for
`in_deezer_playlists` — in `streams` and `in_shazam_charts` any cell
containing a comma (such as "1,234") becomes missing, while in
`in_deezer_playlists` the comma-stripped digits parse to their value. -/
theorem coerced_columns_comma (s : String) (hc : ',' ∈ s.toList) :
    streams_clean s = none ∧ in_shazam_charts_coerced s = none ∧
    ∀ w : List Char, w ≠ [] → w.all Char.isDigit = true → replaceCommas s = String.mk w →
      in_deezer_playlists_clean s = some ((digitsToNat w : ℕ) : ℚ) := by
  refine ⟨to_numeric_comma s hc, to_numeric_comma s hc, ?_⟩
  intro w hne hd hrep
  unfold in_deezer_playlists_clean
  rw [hrep]
  exact to_numeric_digits hne hd

/-- Claim C3, witness: the amended theorem instantiated at the cell "1,234". -/
theorem coerced_columns_comma_witness :
    (',' ∈ ("1,234" : String).toList) ∧ streams_clean "1,234" = none ∧
    in_deezer_playlists_clean "1,234" = some ((digitsToNat ['1', '2', '3', '4'] : ℕ) : ℚ) :=
  ⟨by decide, (coerced_columns_comma "1,234" (by decide)).1,
    (coerced_columns_comma "1,234" (by decide)).2.2 ['1', '2', '3', '4']
      (by decide) (by decide) rfl⟩

/-- Claim C6: after the coercion of line 14 and the `fillna(0)` of line 40,
the `in_shazam_charts` column holds no missing value at all; a cell whose
parse fails ends as the number 0, indistinguishable from a cell holding a
true zero count. -/
theorem in_shazam_charts_no_missing (s : String) (hfail : to_numeric s = none) :
    (∀ t : String, (in_shazam_charts_clean t).isSome) ∧
    in_shazam_charts_clean s = some 0 ∧
    (∀ t : String, to_numeric t = some 0 → in_shazam_charts_clean s = in_shazam_charts_clean t) := by
  refine ⟨?_, ?_, ?_⟩
  · intro t
    unfold in_shazam_charts_clean in_shazam_charts_coerced
    cases to_numeric t <;> rfl
  · unfold in_shazam_charts_clean in_shazam_charts_coerced
    rw [hfail]
    rfl
  · intro t ht
    unfold in_shazam_charts_clean in_shazam_charts_coerced
    rw [hfail, ht]
    rfl

/-- Claim C6, witness: the theorem instantiated at the unparsable cell
"abc" and the true-zero cell "0". -/
theorem in_shazam_charts_no_missing_witness :
    to_numeric "abc" = none ∧ in_shazam_charts_clean "abc" = some 0 ∧
    in_shazam_charts_clean "abc" = in_shazam_charts_clean "0" := by
  have hfail : to_numeric "abc" = none := by decide
  have hzero : to_numeric "0" = some 0 := by
    have h := to_numeric_digits (w := ['0']) (by decide) (by decide)
    simpa [digitsToNat] using h
  exact ⟨hfail, (in_shazam_charts_no_missing "abc" hfail).2.1,
    (in_shazam_charts_no_missing "abc" hfail).2.2 "0" hzero⟩

end Spotify

namespace Spotify

/-- A one-row dataset for the binned-combination view: its single row falls
in the (very low, very low) bin pair and has 3 chart appearances. -/
def sampleBinRows : List BinRow := [⟨some Level.veryLow, some Level.veryLow, 3⟩]

/-- Claim C2, counterexample: on a one-row dataset whose row carries the
(very low, very low) pair, the pair (high, high) has zero underlying rows
and yet appears in the output (with a missing mean): `groupby` on the two
categorical bin columns keeps every category combination. -/
theorem combination_has_unobserved_pair :
    pairRows sampleBinRows Level.high Level.high = [] ∧
    (Level.high, Level.high, (none : Option ℚ)) ∈ combination_charts_avg sampleBinRows := by
  refine ⟨rfl, ?_⟩
  have hm : groupMean sampleBinRows Level.high Level.high = none := rfl
  refine List.mem_flatMap.mpr ⟨Level.high, ?_, List.mem_map.mpr ⟨Level.high, ?_, ?_⟩⟩
  · simp [levels]
  · simp [levels]
  · rw [hm]

/-- Claim C2 (amended): the binned-combination view emits exactly one row
for every pair of the full 5×5 product of energy and valence labels —
25 rows regardless of the data, pairs with zero underlying rows included —
and the row's mean is missing exactly when no underlying row carries the
pair, and equals the group mean of `in_spotify_charts` otherwise. -/
theorem combination_charts_avg_dense (rows : List BinRow) (e v : Level) :
    (e, v, groupMean rows e v) ∈ combination_charts_avg rows ∧
    (combination_charts_avg rows).length = 25 ∧
    (groupMean rows e v = none ↔ pairRows rows e v = []) ∧
    ∀ m : ℚ, groupMean rows e v = some m →
      m = ((pairRows rows e v).map (fun r => r.in_spotify_charts)).sum /
        ((pairRows rows e v).length : ℚ) := by
  refine ⟨?_, ?_, ?_, ?_⟩
  · have he : e ∈ levels := by cases e <;> simp [levels]
    have hv : v ∈ levels := by cases v <;> simp [levels]
    exact List.mem_flatMap.mpr ⟨e, he, List.mem_map.mpr ⟨v, hv, rfl⟩⟩
  · simp [combination_charts_avg, levels]
  · constructor
    · intro h
      by_cases hlen : (pairRows rows e v).length = 0
      · exact List.length_eq_zero.mp hlen
      · exfalso
        unfold groupMean at h
        rw [if_neg hlen] at h
        exact Option.noConfusion h
    · intro h
      unfold groupMean
      rw [h]
      rfl
  · intro m hm
    by_cases hlen : (pairRows rows e v).length = 0
    · exfalso
      unfold groupMean at hm
      rw [if_pos hlen] at hm
      exact Option.noConfusion hm
    · unfold groupMean at hm
      rw [if_neg hlen] at hm
      exact (Option.some.inj hm).symm

/-- Claim C2, witness: the amended theorem instantiated on the one-row
dataset, at the unobserved pair (high, high) and the observed pair
(very low, very low). -/
theorem combination_charts_avg_dense_witness :
    ((Level.high, Level.high, groupMean sampleBinRows Level.high Level.high) ∈
      combination_charts_avg sampleBinRows) ∧
    (combination_charts_avg sampleBinRows).length = 25 ∧
    (∃ m : ℚ, groupMean sampleBinRows Level.veryLow Level.veryLow = some m ∧
      m = ((pairRows sampleBinRows Level.veryLow Level.veryLow).map
            (fun r => r.in_spotify_charts)).sum /
          ((pairRows sampleBinRows Level.veryLow Level.veryLow).length : ℚ)) := by
  refine ⟨(combination_charts_avg_dense sampleBinRows Level.high Level.high).1,
    (combination_charts_avg_dense sampleBinRows Level.high Level.high).2.1, ?_⟩
  have hne : pairRows sampleBinRows Level.veryLow Level.veryLow ≠ [] := by
    intro h
    exact List.noConfusion h
  have hnn : groupMean sampleBinRows Level.veryLow Level.veryLow ≠ none := fun h =>
    hne (((combination_charts_avg_dense sampleBinRows Level.veryLow Level.veryLow).2.2.1).mp h)
  obtain ⟨m, hm⟩ := Option.ne_none_iff_exists'.mp hnn
  exact ⟨m, hm,
    (combination_charts_avg_dense sampleBinRows Level.veryLow Level.veryLow).2.2.2 m hm⟩

/-- Mapping a permutation over all indices before a function leaves the
multiset of its values over all indices unchanged. -/
lemma map_univ_perm (f : Fin 8 → ℚ) (κ : Equiv.Perm (Fin 8)) :
    Multiset.map (fun j => f (κ j)) Finset.univ.val = Multiset.map f Finset.univ.val := by
  have h : Finset.univ.val.map (⇑κ) = Finset.univ.val := by
    have h2 := Finset.univ_map_equiv_to_embedding κ
    calc Finset.univ.val.map (⇑κ) = (Finset.univ.map κ.toEmbedding).val :=
          (Finset.map_val κ.toEmbedding Finset.univ).symm
      _ = Finset.univ.val := by rw [h2]
  calc Multiset.map (fun j => f (κ j)) Finset.univ.val
      = Multiset.map f (Finset.univ.val.map (⇑κ)) := by rw [Multiset.map_map]; rfl
    _ = Multiset.map f Finset.univ.val := by rw [h]

/-- Claim C4: the Clusterer's output is exactly the rounded correlation
matrix with the dendrogram leaf order applied to rows and columns followed
by a reversal of the column order only; consequently it is a permutation
of the input's rows and columns — each output row (column) carries the
same multiset of values as some input row (column). -/
theorem clusterer_output_is_permutation (M : Mat) (ord : Equiv.Perm (Fin 8)) :
    (∀ i j, clusterer_output M ord i j = M (ord i) (ord (Fin.rev j))) ∧
    ∃ ρ κ : Equiv.Perm (Fin 8),
      (∀ i j, clusterer_output M ord i j = M (ρ i) (κ j)) ∧
      (∀ i, Multiset.map (fun j => clusterer_output M ord i j) Finset.univ.val =
            Multiset.map (fun j => M (ρ i) j) Finset.univ.val) ∧
      (∀ j, Multiset.map (fun i => clusterer_output M ord i j) Finset.univ.val =
            Multiset.map (fun i => M i (κ j)) Finset.univ.val) := by
  refine ⟨fun i j => rfl, ord, Fin.revPerm.trans ord, fun i j => rfl, ?_, ?_⟩
  · intro i
    exact map_univ_perm (fun j => M (ord i) j) (Fin.revPerm.trans ord)
  · intro j
    exact map_univ_perm (fun i => M i ((Fin.revPerm.trans ord) j)) ord

end Spotify

namespace Spotify

/-- Summing streams over the year-filtered rows of one artist equals
summing over the rows selected by the combined artist-and-year predicate. -/
lemma sum_streams_year_filter (rows : List Track) (lo hi : ℤ) (a : String) :
    sum_streams (year_filter rows lo hi) a =
    ((rows.filter (fun r => decide (r.artist_name = a) &&
        (decide (lo ≤ r.released_year) && decide (r.released_year ≤ hi)))).map
      (fun r => r.streams.getD 0)).sum := by
  unfold sum_streams artistRows year_filter
  rw [List.filter_filter]

/-- Claim C5: for any inclusive year range, the top-artist view returns at
most 10 rows, sorted by summed streams in descending order; each returned
artist's summed streams is the sum of the streams values (missing counted
as 0) over exactly the rows matching that artist and lying in the range;
and the displayed value is that sum divided by 1e9. -/
theorem artist_popularity_spec (rows : List Track) (lo hi : ℤ) :
    (artist_popularity rows lo hi).length ≤ 10 ∧
    List.Sorted (fun p q : String × ℚ => q.2 ≤ p.2) (artist_popularity rows lo hi) ∧
    (∀ p ∈ artist_popularity rows lo hi,
      p.2 = ((rows.filter (fun r => decide (r.artist_name = p.1) &&
          (decide (lo ≤ r.released_year) && decide (r.released_year ≤ hi)))).map
        (fun r => r.streams.getD 0)).sum) ∧
    (∀ q ∈ artist_popularity_billions rows lo hi,
      q.2.2 = q.2.1 / 1000000000 ∧ (q.1, q.2.1) ∈ artist_popularity rows lo hi) := by
  haveI htot : IsTotal (String × ℚ) (fun p q => q.2 ≤ p.2) := ⟨fun a b => le_total b.2 a.2⟩
  haveI htrans : IsTrans (String × ℚ) (fun p q => q.2 ≤ p.2) :=
    ⟨fun a b c hab hbc => le_trans hbc hab⟩
  refine ⟨List.length_take_le 10 _, ?_, ?_, ?_⟩
  · exact List.Pairwise.sublist (List.take_sublist 10 _)
      (List.sorted_insertionSort (fun p q : String × ℚ => q.2 ≤ p.2) _)
  · intro p hp
    have hp2 : p ∈ List.insertionSort (fun p q : String × ℚ => q.2 ≤ p.2)
        (grouped_streams (year_filter rows lo hi)) := List.mem_of_mem_take hp
    have hp3 : p ∈ grouped_streams (year_filter rows lo hi) :=
      ((List.perm_insertionSort _ _).mem_iff).mp hp2
    obtain ⟨a, _, hpa⟩ := List.mem_map.mp hp3
    rw [← hpa]
    exact sum_streams_year_filter rows lo hi a
  · intro q hq
    obtain ⟨p, hp, hqp⟩ := List.mem_map.mp hq
    rw [← hqp]
    exact ⟨rfl, hp⟩

/-- A one-row dataset for the top-artist view: one 2020 track with five
streams. -/
def sampleTracks : List Track := [⟨"Artist A", 2020, some 5⟩]

/-- Claim C5, witness: the top-artist theorem instantiated on the one-row
dataset over the year range 2019-2021; the single returned row carries the
artist's year-filtered stream sum, that sum satisfies the combined-filter
equation of the theorem, and it evaluates to 5. -/
theorem artist_popularity_spec_witness :
    (("Artist A", sum_streams (year_filter sampleTracks 2019 2021) "Artist A") ∈
      artist_popularity sampleTracks 2019 2021) ∧
    sum_streams (year_filter sampleTracks 2019 2021) "Artist A" =
      ((sampleTracks.filter (fun r => decide (r.artist_name = "Artist A") &&
          (decide ((2019:ℤ) ≤ r.released_year) && decide (r.released_year ≤ (2021:ℤ))))).map
        (fun r => r.streams.getD 0)).sum ∧
    sum_streams (year_filter sampleTracks 2019 2021) "Artist A" = 5 := by
  have hmem : ("Artist A", sum_streams (year_filter sampleTracks 2019 2021) "Artist A") ∈
      artist_popularity sampleTracks 2019 2021 := by
    have hpop : artist_popularity sampleTracks 2019 2021 =
        [("Artist A", sum_streams (year_filter sampleTracks 2019 2021) "Artist A")] := rfl
    rw [hpop]
    exact List.mem_singleton_self _
  have hval : sum_streams (year_filter sampleTracks 2019 2021) "Artist A" = 5 := by
    have h5 : sum_streams (year_filter sampleTracks 2019 2021) "Artist A" =
        [(5:ℚ)].sum := rfl
    rw [h5, List.sum_cons, List.sum_nil, add_zero]
  exact ⟨hmem,
    (artist_popularity_spec sampleTracks 2019 2021).2.2.1
      ("Artist A", sum_streams (year_filter sampleTracks 2019 2021) "Artist A") hmem,
    hval⟩

/-- Claim C9: a row with a missing streams value contributes nothing to its
artist's sum, and an artist present in the selected year range all of whose
rows have missing streams still appears in the grouped result with the sum
0 (not a missing sum). -/
theorem missing_streams_sum_zero (rows : List Track) (lo hi : ℤ) (a : String)
    (hex : ∃ t ∈ year_filter rows lo hi, t.artist_name = a)
    (hall : ∀ t ∈ year_filter rows lo hi, t.artist_name = a → t.streams = none) :
    (a, (0:ℚ)) ∈ grouped_streams (year_filter rows lo hi) ∧
    ∀ r : Track, r.streams = none →
      sum_streams (r :: year_filter rows lo hi) a = sum_streams (year_filter rows lo hi) a := by
  constructor
  · have hsum : sum_streams (year_filter rows lo hi) a = 0 := by
      unfold sum_streams
      apply List.sum_eq_zero
      intro x hx
      obtain ⟨r, hr, hrx⟩ := List.mem_map.mp hx
      have hmf := List.mem_filter.mp hr
      have hra : r.artist_name = a := of_decide_eq_true hmf.2
      have hnone : r.streams = none := hall r hmf.1 hra
      rw [← hrx, hnone]
      rfl
    have hkey : a ∈ group_keys (year_filter rows lo hi) := by
      obtain ⟨t, ht, hta⟩ := hex
      have h1 : a ∈ (year_filter rows lo hi).map (fun r => r.artist_name) :=
        List.mem_map.mpr ⟨t, ht, hta⟩
      exact ((List.perm_insertionSort _ _).mem_iff).mpr (List.mem_dedup.mpr h1)
    have hmem : (a, sum_streams (year_filter rows lo hi) a) ∈
        grouped_streams (year_filter rows lo hi) := List.mem_map.mpr ⟨a, hkey, rfl⟩
    rwa [hsum] at hmem
  · intro r hr
    unfold sum_streams artistRows
    by_cases hra : r.artist_name = a
    · have hcons : List.filter (fun t => decide (t.artist_name = a)) (r :: year_filter rows lo hi)
          = r :: List.filter (fun t => decide (t.artist_name = a)) (year_filter rows lo hi) :=
        List.filter_cons_of_pos (decide_eq_true hra)
      rw [hcons, List.map_cons, List.sum_cons, hr]
      simp
    · have hcons : List.filter (fun t => decide (t.artist_name = a)) (r :: year_filter rows lo hi)
          = List.filter (fun t => decide (t.artist_name = a)) (year_filter rows lo hi) :=
        List.filter_cons_of_neg (by simpa using hra)
      rw [hcons]

/-- A one-row dataset whose single 2020 track has a missing streams value. -/
def sampleTracksMissing : List Track := [⟨"Artist B", 2020, none⟩]

/-- Claim C9, witness: the theorem instantiated on the one-row dataset with
a missing streams value over the year range 2020-2020. -/
theorem missing_streams_sum_zero_witness :
    (∃ t ∈ year_filter sampleTracksMissing 2020 2020, t.artist_name = "Artist B") ∧
    ("Artist B", (0:ℚ)) ∈ grouped_streams (year_filter sampleTracksMissing 2020 2020) := by
  have hyf : year_filter sampleTracksMissing 2020 2020 = sampleTracksMissing := rfl
  have hex : ∃ t ∈ year_filter sampleTracksMissing 2020 2020, t.artist_name = "Artist B" := by
    rw [hyf]
    exact ⟨⟨"Artist B", 2020, none⟩, List.mem_singleton_self _, rfl⟩
  have hall : ∀ t ∈ year_filter sampleTracksMissing 2020 2020,
      t.artist_name = "Artist B" → t.streams = none := by
    rw [hyf]
    intro t ht _
    rw [List.mem_singleton.mp ht]
  exact ⟨hex,
    (missing_streams_sum_zero sampleTracksMissing 2020 2020 "Artist B" hex hall).1⟩

end Spotify

namespace Spotify

/-- Claim C10: the attribute-vs-playlists reshape outputs exactly 3 rows
per input row, one per attribute in the fixed order `danceability_%`,
`bpm`, `acousticness_%`; each output row carries the input row's
`in_spotify_playlists` and `track_name` unchanged; the value of a
`danceability_%` or `acousticness_%` row is the raw percentage divided by
100, while a `bpm` row keeps the unscaled original. -/
theorem spotify_melted_spec (rows : List SongRow) (i : ℕ) (h : i < rows.length) :
    (spotify_melted rows).length = 3 * rows.length ∧
    ∀ r : SongRow, rows[i]? = some r →
      (spotify_melted rows)[i]? =
        some ⟨r.in_spotify_playlists, r.track_name, "danceability_%", r.danceability / 100⟩ ∧
      (spotify_melted rows)[rows.length + i]? =
        some ⟨r.in_spotify_playlists, r.track_name, "bpm", r.bpm⟩ ∧
      (spotify_melted rows)[2 * rows.length + i]? =
        some ⟨r.in_spotify_playlists, r.track_name, "acousticness_%", r.acousticness / 100⟩ := by
  constructor
  · simp only [spotify_melted, melt, List.length_append, List.length_map]
    ring
  · intro r hr
    have hnr : (rows.map normalize_percent)[i]? = some (normalize_percent r) := by
      rw [List.getElem?_map, hr]
      rfl
    have lenN : (rows.map normalize_percent).length = rows.length := List.length_map _ _
    refine ⟨?_, ?_, ?_⟩
    · show ((List.map _ (rows.map normalize_percent) ++ List.map _ (rows.map normalize_percent))
          ++ List.map _ (rows.map normalize_percent))[i]? = _
      rw [List.getElem?_append_left (by
        simp only [List.length_append, List.length_map]
        omega)]
      rw [List.getElem?_append_left (by simp only [List.length_map]; omega)]
      rw [List.getElem?_map, hnr]
      rfl
    · show ((List.map _ (rows.map normalize_percent) ++ List.map _ (rows.map normalize_percent))
          ++ List.map _ (rows.map normalize_percent))[rows.length + i]? = _
      rw [List.getElem?_append_left (by
        simp only [List.length_append, List.length_map]
        omega)]
      rw [List.getElem?_append_right (by simp only [List.length_map]; omega)]
      have hidx : rows.length + i - (List.map (fun r =>
          (⟨r.in_spotify_playlists, r.track_name, "danceability_%", r.danceability⟩ : MeltedRow))
          (rows.map normalize_percent)).length = i := by
        simp only [List.length_map]
        omega
      rw [hidx, List.getElem?_map, hnr]
      rfl
    · show ((List.map _ (rows.map normalize_percent) ++ List.map _ (rows.map normalize_percent))
          ++ List.map _ (rows.map normalize_percent))[2 * rows.length + i]? = _
      rw [List.getElem?_append_right (by
        simp only [List.length_append, List.length_map]
        omega)]
      have hidx : 2 * rows.length + i - (List.map (fun r =>
            (⟨r.in_spotify_playlists, r.track_name, "danceability_%", r.danceability⟩ : MeltedRow))
            (rows.map normalize_percent) ++ List.map (fun r =>
            (⟨r.in_spotify_playlists, r.track_name, "bpm", r.bpm⟩ : MeltedRow))
            (rows.map normalize_percent)).length = i := by
        simp only [List.length_append, List.length_map]
        omega
      rw [hidx, List.getElem?_map, hnr]
      rfl

/-- A one-row dataset for the reshape: 10 playlists, raw danceability 50,
bpm 120, raw acousticness 30. -/
def sampleSongs : List SongRow := [⟨10, "Track T", 50, 120, 30⟩]

/-- Claim C10, witness: the reshape theorem instantiated on the one-row
dataset at row index 0. -/
theorem spotify_melted_spec_witness :
    (spotify_melted sampleSongs).length = 3 * sampleSongs.length ∧
    (spotify_melted sampleSongs)[0]? =
      some ⟨10, "Track T", "danceability_%", 50 / 100⟩ ∧
    (spotify_melted sampleSongs)[sampleSongs.length + 0]? =
      some ⟨10, "Track T", "bpm", 120⟩ ∧
    (spotify_melted sampleSongs)[2 * sampleSongs.length + 0]? =
      some ⟨10, "Track T", "acousticness_%", 30 / 100⟩ := by
  have h := spotify_melted_spec sampleSongs 0 (by decide)
  have h2 := h.2 ⟨10, "Track T", 50, 120, 30⟩ rfl
  exact ⟨h.1, h2.1, h2.2.1, h2.2.2⟩

end Spotify
